import Mathlib

/- Verification development for a small security-event analytics pipeline
   (analytics.py): JSON loading, signature classification, frequency
   aggregation, timestamp enrichment, CSV export, and top-level error
   reporting. -/

namespace Analytics

/-- ASCII uppercase test: the character class A-Z used by the classifier
regex in extract_event_type. -/
def isUpperAZ (c : Char) : Bool := 'A' ≤ c && c ≤ 'Z'

/-- Greedy anchored match of the regex, one or more uppercase letters,
then an optional hyphen, then zero or more uppercase letters, over the
character list of the signature; returns the captured group when the
match succeeds.  The backtracking-free greedy semantics of the Python
pattern is: take the maximal uppercase run, consume a following hyphen
if present, then take the maximal uppercase run after it. -/
def matchEventType (cs : List Char) : Option (List Char) :=
  if (cs.takeWhile isUpperAZ).isEmpty then none
  else if (cs.dropWhile isUpperAZ).head? = some '-' then
    some (cs.takeWhile isUpperAZ
      ++ '-' :: ((cs.dropWhile isUpperAZ).tail.takeWhile isUpperAZ))
  else some (cs.takeWhile isUpperAZ)

/-- Embedding of extract_event_type from analytics.py: re.match of the
anchored pattern on the signature, returning the captured group on
success and the sentinel UNKNOWN on failure. -/
def extract_event_type (s : String) : String :=
  match matchEventType s.data with
  | some g => String.mk g
  | none => ("UNKNOWN")

/-- Whether a string starts with an ASCII uppercase letter: exactly the
condition under which the anchored regex of extract_event_type matches. -/
def startsUpper (s : String) : Bool :=
  match s.data with
  | c :: _ => isUpperAZ c
  | [] => false

theorem takeWhile_append_allP {α : Type} (p : α → Bool) (u rest : List α)
    (hu : ∀ a ∈ u, p a = true) :
    (u ++ rest).takeWhile p = u ++ rest.takeWhile p := by
  induction u with
  | nil => simp
  | cons a u ih =>
    simp only [List.cons_append, List.takeWhile_cons,
      hu a (List.mem_cons_self a u), if_true, List.cons.injEq, true_and]
    exact ih fun b hb => hu b (List.mem_cons_of_mem a hb)

theorem dropWhile_append_allP {α : Type} (p : α → Bool) (u rest : List α)
    (hu : ∀ a ∈ u, p a = true) :
    (u ++ rest).dropWhile p = rest.dropWhile p := by
  induction u with
  | nil => simp
  | cons a u ih =>
    simp only [List.cons_append, List.dropWhile_cons,
      hu a (List.mem_cons_self a u), if_true]
    exact ih fun b hb => hu b (List.mem_cons_of_mem a hb)

theorem takeWhile_eq_nil_of_headFalse {α : Type} (p : α → Bool) (rest : List α)
    (hr : ∀ c, rest.head? = some c → p c = false) :
    rest.takeWhile p = [] := by
  cases rest with
  | nil => rfl
  | cons c t => simp [List.takeWhile_cons, hr c rfl]

theorem dropWhile_eq_self_of_headFalse {α : Type} (p : α → Bool) (rest : List α)
    (hr : ∀ c, rest.head? = some c → p c = false) :
    rest.dropWhile p = rest := by
  cases rest with
  | nil => rfl
  | cons c t => simp [List.dropWhile_cons, hr c rfl]

/-- On input u₁ ++ "-" ++ u₂ ++ rest with u₁ a nonempty uppercase run,
u₂ an uppercase run, and rest not starting with an uppercase letter, the
match captures u₁ ++ "-" ++ u₂. -/
theorem matchEventType_hyphen (u₁ u₂ rest : List Char)
    (h₁ : u₁ ≠ []) (h₂ : ∀ c ∈ u₁, isUpperAZ c = true)
    (h₃ : ∀ c ∈ u₂, isUpperAZ c = true)
    (h₄ : ∀ c, rest.head? = some c → isUpperAZ c = false) :
    matchEventType (u₁ ++ '-' :: (u₂ ++ rest)) = some (u₁ ++ '-' :: u₂) := by
  have htake : (u₁ ++ '-' :: (u₂ ++ rest)).takeWhile isUpperAZ = u₁ := by
    rw [takeWhile_append_allP isUpperAZ u₁ _ h₂]
    simp [List.takeWhile_cons, isUpperAZ]
  have hdrop : (u₁ ++ '-' :: (u₂ ++ rest)).dropWhile isUpperAZ
      = '-' :: (u₂ ++ rest) := by
    rw [dropWhile_append_allP isUpperAZ u₁ _ h₂]
    simp [List.dropWhile_cons, isUpperAZ]
  have htail : (u₂ ++ rest).takeWhile isUpperAZ = u₂ := by
    rw [takeWhile_append_allP isUpperAZ u₂ rest h₃,
      takeWhile_eq_nil_of_headFalse isUpperAZ rest h₄, List.append_nil]
  simp [matchEventType, htake, hdrop, htail, List.isEmpty_iff, h₁]

/-- On input u₁ ++ rest with u₁ a nonempty uppercase run and rest starting
neither with an uppercase letter nor with a hyphen, the match captures
exactly u₁. -/
theorem matchEventType_plain (u₁ rest : List Char)
    (h₁ : u₁ ≠ []) (h₂ : ∀ c ∈ u₁, isUpperAZ c = true)
    (h₄ : ∀ c, rest.head? = some c → isUpperAZ c = false)
    (h₅ : rest.head? ≠ some '-') :
    matchEventType (u₁ ++ rest) = some u₁ := by
  have htake : (u₁ ++ rest).takeWhile isUpperAZ = u₁ := by
    rw [takeWhile_append_allP isUpperAZ u₁ _ h₂,
      takeWhile_eq_nil_of_headFalse isUpperAZ rest h₄, List.append_nil]
  have hdrop : (u₁ ++ rest).dropWhile isUpperAZ = rest := by
    rw [dropWhile_append_allP isUpperAZ u₁ _ h₂]
    exact dropWhile_eq_self_of_headFalse isUpperAZ rest h₄
  simp [matchEventType, htake, hdrop, List.isEmpty_iff, h₁, h₅]

/-- Any group captured by the match is nonempty, consists only of
uppercase letters and hyphens, and is a prefix of the input. -/
theorem matchEventType_sound (cs g : List Char)
    (h : matchEventType cs = some g) :
    g ≠ [] ∧ (∀ c ∈ g, isUpperAZ c = true ∨ c = '-') ∧ g <+: cs := by
  unfold matchEventType at h
  split_ifs at h with he hh
  all_goals
    have hne : cs.takeWhile isUpperAZ ≠ [] := by
      simpa [List.isEmpty_iff] using he
  all_goals
    have hup : ∀ c ∈ cs.takeWhile isUpperAZ, isUpperAZ c = true :=
      fun c hc => List.mem_takeWhile_imp hc
  · rcases List.head?_eq_some_iff.mp hh with ⟨t, ht⟩
    obtain rfl := Option.some.inj h
    refine ⟨by simp [hne], ?_, ?_⟩
    · intro c hc
      rcases List.mem_append.mp hc with hc | hc
      · exact Or.inl (hup c hc)
      · rcases List.mem_cons.mp hc with hc | hc
        · exact Or.inr hc
        · exact Or.inl (List.mem_takeWhile_imp hc)
    · refine ⟨t.dropWhile isUpperAZ, ?_⟩
      have htail : (cs.dropWhile isUpperAZ).tail = t := by
        rw [ht, List.tail_cons]
      rw [htail]
      conv_rhs => rw [← List.takeWhile_append_dropWhile isUpperAZ cs, ht,
        ← List.takeWhile_append_dropWhile isUpperAZ t]
      simp [List.append_assoc]
  · obtain rfl := Option.some.inj h
    exact ⟨hne, fun c hc => Or.inl (hup c hc),
      List.takeWhile_prefix isUpperAZ⟩

/-- When the input starts with an uppercase letter the match succeeds. -/
theorem matchEventType_isSome_of_startsUpper (s : String)
    (h : startsUpper s = true) :
    ∃ g, matchEventType s.data = some g := by
  have hne : (s.data.takeWhile isUpperAZ).isEmpty = false := by
    unfold startsUpper at h
    rcases hd : s.data with _ | ⟨c, cs⟩
    · rw [hd] at h; exact absurd h (by simp)
    · rw [hd] at h
      have hc : isUpperAZ c = true := h
      simp [List.takeWhile_cons, hc]
  unfold matchEventType
  rw [hne]
  simp only [Bool.false_eq_true, if_false]
  by_cases hh : (s.data.dropWhile isUpperAZ).head? = some '-'
  · exact ⟨_, by rw [if_pos hh]⟩
  · exact ⟨_, by rw [if_neg hh]⟩

theorem headFalse_of_optionAll (rest : List Char)
    (h : rest.head?.all (fun c => !(isUpperAZ c)) = true) :
    ∀ c, rest.head? = some c → isUpperAZ c = false := by
  intro c hc
  rw [hc] at h
  simpa using h

/-- C1: every signature starting with an uppercase run, optionally
hyphen-segmented, is classified as exactly that leading run; in
particular the spec's two examples. -/
theorem extract_event_type_leading_run (u₁ u₂ rest : List Char)
    (h₁ : u₁ ≠ []) (h₂ : u₁.all isUpperAZ = true) (h₃ : u₂.all isUpperAZ = true)
    (h₄ : rest.head?.all (fun c => !(isUpperAZ c)) = true) :
    (u₂ ≠ [] → extract_event_type (String.mk (u₁ ++ '-' :: (u₂ ++ rest)))
        = String.mk (u₁ ++ '-' :: u₂))
    ∧ (rest.head? ≠ some '-' →
        extract_event_type (String.mk (u₁ ++ rest)) = String.mk u₁)
    ∧ extract_event_type ("PORTSCAN detected on port 22") = ("PORTSCAN")
    ∧ extract_event_type ("SQL-INJECTION attempt") = ("SQL-INJECTION") := by
  have h₂m : ∀ c ∈ u₁, isUpperAZ c = true := List.all_eq_true.mp h₂
  have h₃m : ∀ c ∈ u₂, isUpperAZ c = true := List.all_eq_true.mp h₃
  have h₄m : ∀ c, rest.head? = some c → isUpperAZ c = false :=
    headFalse_of_optionAll rest h₄
  refine ⟨fun _ => ?_, fun h₅ => ?_, by decide, by decide⟩
  · have := matchEventType_hyphen u₁ u₂ rest h₁ h₂m h₃m h₄m
    simp [extract_event_type, this]
  · have := matchEventType_plain u₁ rest h₁ h₂m h₄m h₅
    simp [extract_event_type, this]

/-- C1 witness: concrete instance with a hyphen-segmented run. -/
theorem extract_event_type_leading_run_witness :
    extract_event_type (String.mk (['S', 'Q', 'L'] ++ '-' :: (['I', 'N', 'J'] ++ [' ', 'x'])))
      = String.mk (['S', 'Q', 'L'] ++ '-' :: ['I', 'N', 'J']) :=
  (extract_event_type_leading_run (['S', 'Q', 'L']) (['I', 'N', 'J']) ([' ', 'x'])
    (by decide) (by decide) (by decide) (by decide)).1 (by decide)

/-- C2: for matching inputs the returned label consists only of the
uppercase-letter/hyphen run at the start of the string (a prefix of the
input, never trailing characters after it), and a signature that is
exactly a hyphen-separated uppercase prefix with nothing after it is
returned whole. -/
theorem extract_event_type_captures_prefix_run (s : String) (u₁ u₂ : List Char)
    (h₀ : startsUpper s = true)
    (h₁ : u₁ ≠ []) (h₂ : u₁.all isUpperAZ = true)
    (_h₃ : u₂ ≠ []) (h₄ : u₂.all isUpperAZ = true) :
    ((extract_event_type s).data.all (fun c => isUpperAZ c || c == '-') = true
      ∧ (extract_event_type s).data.isPrefixOf s.data = true)
    ∧ extract_event_type (String.mk (u₁ ++ '-' :: u₂)) = String.mk (u₁ ++ '-' :: u₂) := by
  constructor
  · rcases matchEventType_isSome_of_startsUpper s h₀ with ⟨g, hg⟩
    rcases matchEventType_sound s.data g hg with ⟨-, hmem, hpre⟩
    have hext : extract_event_type s = String.mk g := by
      simp [extract_event_type, hg]
    constructor
    · rw [hext]
      refine List.all_eq_true.mpr ?_
      intro c hc
      rcases hmem c hc with hc' | hc'
      · simp [hc']
      · simp [hc']
    · rw [hext]
      exact List.isPrefixOf_iff_prefix.mpr hpre
  · have h₂m : ∀ c ∈ u₁, isUpperAZ c = true := List.all_eq_true.mp h₂
    have h₄m : ∀ c ∈ u₂, isUpperAZ c = true := List.all_eq_true.mp h₄
    have := matchEventType_hyphen u₁ u₂ ([]) h₁ h₂m h₄m (by intro c hc; simp at hc)
    rw [List.append_nil] at this
    simp [extract_event_type, this]

/-- C2 witness: concrete instances for both conjuncts. -/
theorem extract_event_type_captures_prefix_run_witness :
    ((extract_event_type ("AB-12")).data.all (fun c => isUpperAZ c || c == '-') = true
      ∧ (extract_event_type ("AB-12")).data.isPrefixOf ("AB-12").data = true)
    ∧ extract_event_type (String.mk (['A', 'B'] ++ '-' :: ['C']))
        = String.mk (['A', 'B'] ++ '-' :: ['C']) :=
  extract_event_type_captures_prefix_run ("AB-12") (['A', 'B']) (['C'])
    (by decide) (by decide) (by decide) (by decide) (by decide)

/-- C3: a signature not starting with an uppercase letter is classified
as the sentinel UNKNOWN; in particular the spec's example. -/
theorem extract_event_type_unknown_of_not_upper (s : String)
    (h : startsUpper s = false) :
    extract_event_type s = ("UNKNOWN")
    ∧ extract_event_type ("malware.exe executed") = ("UNKNOWN") := by
  refine ⟨?_, by decide⟩
  unfold startsUpper at h
  rcases hd : s.data with _ | ⟨c, cs⟩
  · simp [extract_event_type, matchEventType, hd]
  · rw [hd] at h
    have hc : isUpperAZ c = false := h
    simp [extract_event_type, matchEventType, hd, List.takeWhile_cons, hc]

/-- C3 witness: concrete non-uppercase-leading signature. -/
theorem extract_event_type_unknown_of_not_upper_witness :
    extract_event_type ("malware.exe executed") = ("UNKNOWN") :=
  (extract_event_type_unknown_of_not_upper ("malware.exe executed") (by decide)).1

/-- C4: the classifier is a pure total function on strings: it always
returns a result, returns equal results on equal inputs, and is defined
even on the empty string. -/
theorem extract_event_type_total (s₁ s₂ : String) (h : s₁ = s₂) :
    (∃ r : String, extract_event_type s₁ = r)
    ∧ extract_event_type s₁ = extract_event_type s₂
    ∧ extract_event_type ("") = ("UNKNOWN") :=
  ⟨⟨extract_event_type s₁, rfl⟩, by rw [h], by decide⟩

/-- C4 witness: concrete equal inputs. -/
theorem extract_event_type_total_witness :
    extract_event_type ("PORTSCAN") = extract_event_type ("PORTSCAN") :=
  (extract_event_type_total ("PORTSCAN") ("PORTSCAN") rfl).2.1

/-- An event record: the fields of one JSON object, as an association
list from column name to cell value (cells rendered as text, as the CSV
writer renders them). -/
abbrev Row := List (String × String)

/-- Looking a column value up in a record. -/
def lookupField (r : Row) (k : String) : Option String :=
  List.lookup k r

/-- A pandas column assignment on one record: replace the value when the
column exists, otherwise append the new column at the end. -/
def setField (r : Row) (k v : String) : Row :=
  if (r.map Prod.fst).contains k then
    r.map (fun p => if p.1 = k then (k, v) else p)
  else r ++ [(k, v)]

/-- A calendar date-time, the value pd.to_datetime produces. -/
structure DateTime where
  year : Nat
  month : Nat
  day : Nat
  hour : Nat
  minute : Nat
  second : Nat
deriving DecidableEq

def digitVal? (c : Char) : Option Nat :=
  if c.isDigit then some (c.toNat - 48) else none

def num2 (a b : Char) : Option Nat := do
  let x ← digitVal? a
  let y ← digitVal? b
  pure (10 * x + y)

def num4 (a b c d : Char) : Option Nat := do
  let x ← num2 a b
  let y ← num2 c d
  pure (100 * x + y)

/-- pd.to_datetime on the ISO-8601-like timestamp strings of the input
(YYYY-MM-DD, a T or space separator, HH:MM:SS), with the calendar
field-range checks under which pandas accepts the value; out-of-range or
differently shaped strings raise, which the embedding reports as none. -/
def parseTimestamp (s : String) : Option DateTime :=
  match s.data with
  | [y1, y2, y3, y4, c1, m1, m2, c2, d1, d2, sep, h1, h2, c3, n1, n2, c4, s1, s2] =>
    match num4 y1 y2 y3 y4, num2 m1 m2, num2 d1 d2,
        num2 h1 h2, num2 n1 n2, num2 s1 s2 with
    | some y, some mo, some d, some h, some mi, some se =>
      if c1 = '-' ∧ c2 = '-' ∧ (sep = 'T' ∨ sep = ' ') ∧ c3 = ':' ∧ c4 = ':'
          ∧ 1 ≤ mo ∧ mo ≤ 12 ∧ 1 ≤ d ∧ d ≤ 31 ∧ h ≤ 23 ∧ mi ≤ 59 ∧ se ≤ 59 then
        some ⟨y, mo, d, h, mi, se⟩
      else none
    | _, _, _, _, _, _ => none
  | _ => none

def pad2 (n : Nat) : String :=
  if n < 10 then ("0") ++ toString n else toString n

def pad4 (n : Nat) : String :=
  if n < 10 then ("000") ++ toString n
  else if n < 100 then ("00") ++ toString n
  else if n < 1000 then ("0") ++ toString n
  else toString n

/-- How a pandas Timestamp cell renders in the exported CSV: the
canonical form with a space between date and time. -/
def renderDateTime (dt : DateTime) : String :=
  pad4 dt.year ++ ("-") ++ pad2 dt.month ++ ("-") ++ pad2 dt.day ++ (" ")
    ++ pad2 dt.hour ++ (":") ++ pad2 dt.minute ++ (":") ++ pad2 dt.second

/-- One record's pass through the pipeline: analyze_security_events adds
the event_type column from the signature, then plot_event_distribution
replaces the timestamp column with its parsed date-time and adds the
hour column.  none models the conditions (no signature value, timestamp
fails to parse) under which the Python run raises out of the pipeline
into the top-level handler. -/
def enrichRow (r : Row) : Option Row :=
  match lookupField r ("signature") with
  | none => none
  | some sig =>
    match lookupField (setField r ("event_type") (extract_event_type sig))
        ("timestamp") with
    | none => none
    | some ts =>
      match parseTimestamp ts with
      | none => none
      | some dt =>
        some (setField (setField (setField r ("event_type") (extract_event_type sig))
          ("timestamp") (renderDateTime dt)) ("hour") (toString dt.hour))

def traverseRows : List Row → Option (List Row)
  | [] => some []
  | r :: rs =>
    match enrichRow r, traverseRows rs with
    | some r₂, some rs₂ => some (r₂ :: rs₂)
    | _, _ => none

/-- The error taxonomy of main: the four except clauses, in order. -/
inductive MainError where
  | fileNotFound
  | jsonDecodeError
  | keyError (k : String)
  | other (msg : String)
deriving DecidableEq

/-- The taxonomy class an error belongs to. -/
def errClass : MainError → Nat
  | .fileNotFound => 0
  | .jsonDecodeError => 1
  | .keyError _ => 2
  | .other _ => 3

/-- The console message each except clause of main prints; for KeyError
the f-string renders the missing key with its repr quotes, and for the
catch-all clause it renders str of the exception, whose text the msg
field carries. -/
def errorMessage : MainError → String
  | .fileNotFound => ("Ошибка: Файл \x27events.json\x27 не найден!")
  | .jsonDecodeError => ("Ошибка: Файл \x27events.json\x27 содержит некорректный JSON!")
  | .keyError k => ("Ошибка: В данных отсутствует ключ \x27") ++ k ++ ("\x27")
  | .other msg => ("Произошла ошибка: ") ++ msg

/-- The whole-table enrichment with its failure class: an empty events
array yields a DataFrame with no signature column, so the column access
raises KeyError; a record-level failure surfaces as the exception the
catch-all clause reports. -/
def enrichTable (events : List Row) : Except MainError (List Row) :=
  if events.isEmpty then .error (.keyError ("signature"))
  else
    match traverseRows events with
    | some rows => .ok rows
    | none => .error (.other ("обработка данных завершилась исключением"))

/-- load_json_data: the state of events.json as the run sees it.  none:
the file is absent (FileNotFoundError).  some none: present but not
valid JSON (json.JSONDecodeError).  some (some doc): a parsed top-level
JSON object, modelled as the mapping from its field names to arrays of
records, the shape the pipeline consumes; a missing events field raises
KeyError. -/
def load_json_data (file : Option (Option (List (String × List Row)))) :
    Except MainError (List Row) :=
  match file with
  | none => .error .fileNotFound
  | some none => .error .jsonDecodeError
  | some (some doc) =>
    match List.lookup ("events") doc with
    | some evs => .ok evs
    | none => .error (.keyError ("events"))

/-- main: run the pipeline inside the try block; any error is caught by
its except clause and reported as that clause's console message, and the
function returns in every case. -/
def runMain (file : Option (Option (List (String × List Row)))) : String :=
  match (load_json_data file).bind enrichTable with
  | .error e => errorMessage e
  | .ok _ => ("Обработанные данные сохранены в \x27processed_security_events.csv\x27")

def insertDesc (x : String × Nat) : List (String × Nat) → List (String × Nat)
  | [] => [x]
  | y :: ys => if y.2 < x.2 then x :: y :: ys else y :: insertDesc x ys

/-- Stable insertion sort by descending count. -/
def sortCountsDesc : List (String × Nat) → List (String × Nat)
  | [] => []
  | x :: xs => insertDesc x (sortCountsDesc xs)

/-- pandas value_counts over a column: the occurrence count of each
distinct value, ordered by descending count. -/
def value_counts (l : List String) : List (String × Nat) :=
  sortCountsDesc (l.dedup.map (fun k => (k, l.count k)))

def dfColumnsAux (acc : List String) : List Row → List String
  | [] => acc
  | r :: rs =>
    dfColumnsAux (acc ++ (r.map Prod.fst).filter (fun k => !(acc.contains k))) rs

/-- The column list of a DataFrame built from a list of records: the
union of the records' field names in order of first appearance. -/
def dfColumns (rows : List Row) : List String := dfColumnsAux ([]) rows

/-- df.to_csv with index False, at the granularity the CSV reader sees:
a header line holding the column names, then one line of cells per row,
missing cells empty. -/
def toCsv (rows : List Row) : List (List String) :=
  dfColumns rows
    :: rows.map (fun r => (dfColumns rows).map (fun c => (lookupField r c).getD ("")))

/-- Reloading the CSV: the first line is the header, the remaining lines
are the data rows. -/
def readCsv (lines : List (List String)) : List String × List (List String) :=
  (lines.headD ([]), lines.tail)

theorem lookup_map_replace (k q v : String) (r : Row) (h : k ≠ q) :
    List.lookup k (r.map (fun p => if p.1 = q then (q, v) else p))
      = List.lookup k r := by
  induction r with
  | nil => rfl
  | cons p r ih =>
    obtain ⟨a, b⟩ := p
    by_cases ha : a = q
    · subst ha
      have hba : (k == a) = false := beq_false_of_ne h
      simp [List.lookup_cons, hba, ih]
    · simp only [List.map_cons, if_neg ha, List.lookup_cons, ih]

theorem lookup_append_last (k q v : String) (r : Row) (h : k ≠ q) :
    List.lookup k (r ++ [(q, v)]) = List.lookup k r := by
  induction r with
  | nil => simp [List.lookup_cons, beq_false_of_ne h]
  | cons p r ih =>
    obtain ⟨a, b⟩ := p
    simp only [List.cons_append, List.lookup_cons, ih]

theorem lookup_map_replace_self (k v : String) (r : Row)
    (hc : k ∈ r.map Prod.fst) :
    List.lookup k (r.map (fun p => if p.1 = k then (k, v) else p)) = some v := by
  induction r with
  | nil => simp at hc
  | cons p r ih =>
    obtain ⟨a, b⟩ := p
    by_cases ha : a = k
    · subst ha
      simp [List.lookup_cons]
    · have hc₂ : k ∈ r.map Prod.fst := by
        rw [List.map_cons] at hc
        rcases List.mem_cons.mp hc with he | hm
        · exact absurd he.symm ha
        · exact hm
      simp only [List.map_cons, if_neg ha, List.lookup_cons,
        beq_false_of_ne (Ne.symm ha), ih hc₂]

theorem lookup_append_last_self (k v : String) (r : Row)
    (hc : k ∉ r.map Prod.fst) :
    List.lookup k (r ++ [(k, v)]) = some v := by
  induction r with
  | nil => simp [List.lookup_cons]
  | cons p r ih =>
    obtain ⟨a, b⟩ := p
    have hak : k ≠ a := fun he => hc (by simp [he])
    have hc₂ : k ∉ r.map Prod.fst := fun hm => hc (by simp [hm])
    simp only [List.cons_append, List.lookup_cons,
      beq_false_of_ne hak, ih hc₂]

/-- Reading any other column is unaffected by a column assignment. -/
theorem lookupField_setField_ne (r : Row) (k q v : String) (h : k ≠ q) :
    lookupField (setField r q v) k = lookupField r k := by
  unfold lookupField setField
  split_ifs with hc
  · exact lookup_map_replace k q v r h
  · exact lookup_append_last k q v r h

/-- Reading back the column just assigned gives the assigned value. -/
theorem lookupField_setField_self (r : Row) (k v : String) :
    lookupField (setField r k v) k = some v := by
  unfold lookupField setField
  split_ifs with hc
  · exact lookup_map_replace_self k v r (List.elem_iff.mp hc)
  · exact lookup_append_last_self k v r (fun hm => hc (List.elem_iff.mpr hm))

/-- C5 counterexample: after the pipeline, the timestamp column of the
enriched, CSV-serialized record no longer holds the value as loaded; the
parsed date-time renders with a space where the input had a T. -/
theorem timestamp_rewritten_counterexample :
    lookupField ([(("signature"), ("PORTSCAN detected")),
        (("timestamp"), ("2024-01-01T03:15:00"))]) ("timestamp")
      = some ("2024-01-01T03:15:00")
    ∧ (enrichRow ([(("signature"), ("PORTSCAN detected")),
        (("timestamp"), ("2024-01-01T03:15:00"))])).bind
        (fun r => lookupField r ("timestamp"))
      = some ("2024-01-01 03:15:00")
    ∧ (("2024-01-01 03:15:00") : String) ≠ ("2024-01-01T03:15:00") := by
  refine ⟨by decide, by decide, by decide⟩

/-- C5 (amended): every original field other than the two added columns
event_type and hour and the rewritten timestamp column appears unchanged
in the enriched table serialized to CSV; the timestamp column instead
holds the parsed date-time of the loaded value. -/
theorem enrich_preserves_other_fields (r r₂ : Row) (k : String)
    (h : enrichRow r = some r₂)
    (hk₁ : k ≠ ("event_type")) (hk₂ : k ≠ ("hour")) (hk₃ : k ≠ ("timestamp")) :
    lookupField r₂ k = lookupField r k := by
  rcases hsig : lookupField r ("signature") with _ | sig
  · simp only [enrichRow, hsig] at h
    exact Option.noConfusion h
  · simp only [enrichRow, hsig] at h
    rcases hts : lookupField (setField r ("event_type") (extract_event_type sig))
        ("timestamp") with _ | ts
    · simp only [hts] at h
      exact Option.noConfusion h
    · simp only [hts] at h
      rcases hdt : parseTimestamp ts with _ | dt
      · simp only [hdt] at h
        exact Option.noConfusion h
      · simp only [hdt, Option.some.injEq] at h
        subst h
        rw [lookupField_setField_ne _ _ _ _ hk₂,
          lookupField_setField_ne _ _ _ _ hk₃,
          lookupField_setField_ne _ _ _ _ hk₁]

/-- C5 witness: the signature field of a concrete record is passed
through unchanged. -/
theorem enrich_preserves_other_fields_witness :
    lookupField ([(("signature"), ("PORTSCAN detected")),
        (("timestamp"), ("2024-01-01 03:15:00")),
        (("event_type"), ("PORTSCAN")), (("hour"), ("3"))]) ("signature")
      = lookupField ([(("signature"), ("PORTSCAN detected")),
        (("timestamp"), ("2024-01-01T03:15:00"))]) ("signature") :=
  enrich_preserves_other_fields
    ([(("signature"), ("PORTSCAN detected")),
      (("timestamp"), ("2024-01-01T03:15:00"))])
    ([(("signature"), ("PORTSCAN detected")),
      (("timestamp"), ("2024-01-01 03:15:00")),
      (("event_type"), ("PORTSCAN")), (("hour"), ("3"))])
    ("signature") (by decide) (by decide) (by decide) (by decide)

theorem sum_map_snd_insertDesc (x : String × Nat) (l : List (String × Nat)) :
    ((insertDesc x l).map Prod.snd).sum = x.2 + (l.map Prod.snd).sum := by
  induction l with
  | nil => simp [insertDesc]
  | cons y ys ih =>
    unfold insertDesc
    split_ifs
    · simp
    · simp only [List.map_cons, List.sum_cons, ih]
      omega

theorem sum_map_snd_sortCountsDesc (l : List (String × Nat)) :
    ((sortCountsDesc l).map Prod.snd).sum = (l.map Prod.snd).sum := by
  induction l with
  | nil => rfl
  | cons x xs ih =>
    simp only [sortCountsDesc, sum_map_snd_insertDesc, ih,
      List.map_cons, List.sum_cons]

/-- C6: the frequency aggregation over the event_type column produces
counts whose sum equals exactly the number of records. -/
theorem value_counts_conservation (sigs : List String) :
    ((value_counts (sigs.map extract_event_type)).map Prod.snd).sum
      = sigs.length := by
  unfold value_counts
  rw [sum_map_snd_sortCountsDesc, List.map_map]
  have hcomp : (Prod.snd ∘ fun k => (k, (sigs.map extract_event_type).count k))
      = fun k => (sigs.map extract_event_type).count k := rfl
  rw [hcomp, List.sum_map_count_dedup_eq_length, List.length_map]

/-- Any date-time produced by timestamp parsing has an hour in 0-23. -/
theorem parseTimestamp_hour_le (s : String) (dt : DateTime)
    (h : parseTimestamp s = some dt) : dt.hour ≤ 23 := by
  unfold parseTimestamp at h
  split at h
  · split at h
    · split_ifs at h with hcond
      obtain rfl := Option.some.inj h
      obtain ⟨-, -, -, -, -, -, -, -, -, h23, -, -⟩ := hcond
      exact h23
    · exact absurd h (by simp)
  · exact absurd h (by simp)

/-- C7: the pipeline parses each record's timestamp and stores the
hour-of-day component, an integer in 0-23, in the new hour column; the
two example timestamps both parse to hour 3. -/
theorem hour_column_from_timestamp (r r₂ : Row) (ts : String) (dt : DateTime)
    (h : enrichRow r = some r₂)
    (hts : lookupField r ("timestamp") = some ts)
    (hdt : parseTimestamp ts = some dt) :
    lookupField r₂ ("hour") = some (toString dt.hour) ∧ dt.hour ≤ 23
    ∧ (parseTimestamp ("2024-01-01T03:15:00")).map DateTime.hour = some 3
    ∧ (parseTimestamp ("2024-01-01T03:45:00")).map DateTime.hour = some 3 := by
  refine ⟨?_, parseTimestamp_hour_le ts dt hdt, by decide, by decide⟩
  rcases hsig : lookupField r ("signature") with _ | sig
  · simp only [enrichRow, hsig] at h
    exact Option.noConfusion h
  · have hts1 : lookupField (setField r ("event_type") (extract_event_type sig))
        ("timestamp") = some ts := by
      rw [lookupField_setField_ne _ _ _ _ (by decide)]
      exact hts
    simp only [enrichRow, hsig, hts1, hdt, Option.some.injEq] at h
    subst h
    exact lookupField_setField_self _ _ _

/-- C7 witness: concrete record and parsed timestamp. -/
theorem hour_column_from_timestamp_witness :
    lookupField ([(("signature"), ("PORTSCAN detected")),
        (("timestamp"), ("2024-01-01 03:15:00")),
        (("event_type"), ("PORTSCAN")), (("hour"), ("3"))]) ("hour")
      = some (toString (DateTime.mk 2024 1 1 3 15 0).hour) :=
  (hour_column_from_timestamp
    ([(("signature"), ("PORTSCAN detected")),
      (("timestamp"), ("2024-01-01T03:15:00"))])
    ([(("signature"), ("PORTSCAN detected")),
      (("timestamp"), ("2024-01-01 03:15:00")),
      (("event_type"), ("PORTSCAN")), (("hour"), ("3"))])
    ("2024-01-01T03:15:00") (DateTime.mk 2024 1 1 3 15 0)
    (by decide) (by decide) (by decide)).1

theorem traverseRows_length (events rows : List Row)
    (h : traverseRows events = some rows) : rows.length = events.length := by
  induction events generalizing rows with
  | nil =>
    unfold traverseRows at h
    obtain rfl := Option.some.inj h
    rfl
  | cons r rs ih =>
    rcases he : enrichRow r with _ | r₂
    · simp only [traverseRows, he] at h
      exact Option.noConfusion h
    · rcases ht : traverseRows rs with _ | rs₂
      · simp only [traverseRows, he, ht] at h
        exact Option.noConfusion h
      · simp only [traverseRows, he, ht, Option.some.injEq] at h
        subst h
        simp [ih rs₂ ht]

theorem traverseRows_cons (e : Row) (es rows : List Row)
    (h : traverseRows (e :: es) = some rows) :
    ∃ r₂ rs₂, enrichRow e = some r₂ ∧ traverseRows es = some rs₂
      ∧ rows = r₂ :: rs₂ := by
  rcases he : enrichRow e with _ | r₂
  · simp only [traverseRows, he] at h
    exact Option.noConfusion h
  · rcases ht : traverseRows es with _ | rs₂
    · simp only [traverseRows, he, ht] at h
      exact Option.noConfusion h
    · simp only [traverseRows, he, ht, Option.some.injEq] at h
      exact ⟨r₂, rs₂, rfl, rfl, h.symm⟩

theorem mem_dfColumnsAux_of_mem_acc (k : String) (acc : List String)
    (rows : List Row) (h : k ∈ acc) : k ∈ dfColumnsAux acc rows := by
  induction rows generalizing acc with
  | nil => exact h
  | cons r rs ih => exact ih _ (List.mem_append.mpr (Or.inl h))

/-- A field name of the first record is among the DataFrame columns. -/
theorem mem_dfColumnsAux_head (k : String) (acc : List String) (r : Row)
    (rows : List Row) (h : k ∈ r.map Prod.fst) :
    k ∈ dfColumnsAux acc (r :: rows) := by
  unfold dfColumnsAux
  apply mem_dfColumnsAux_of_mem_acc
  by_cases hin : k ∈ acc
  · exact List.mem_append.mpr (Or.inl hin)
  · refine List.mem_append.mpr (Or.inr ?_)
    rw [List.mem_filter]
    exact ⟨h, by simp [hin]⟩

theorem keys_map_replace (q v : String) (r : Row) :
    (r.map (fun p => if p.1 = q then (q, v) else p)).map Prod.fst
      = r.map Prod.fst := by
  rw [List.map_map]
  apply List.map_congr_left
  intro p _
  by_cases hp : p.1 = q
  · simp [hp]
  · simp [hp]

theorem mem_keys_setField_self (r : Row) (k v : String) :
    k ∈ (setField r k v).map Prod.fst := by
  unfold setField
  split_ifs with hc
  · rw [keys_map_replace]
    exact List.elem_iff.mp hc
  · simp

theorem mem_keys_setField_of_mem (r : Row) (k q v : String)
    (h : k ∈ r.map Prod.fst) : k ∈ (setField r q v).map Prod.fst := by
  unfold setField
  split_ifs with hc
  · rw [keys_map_replace]
    exact h
  · simp [h]

/-- Every enriched record carries the two added columns. -/
theorem enrichRow_keys (r r₂ : Row) (h : enrichRow r = some r₂) :
    ("event_type") ∈ r₂.map Prod.fst ∧ ("hour") ∈ r₂.map Prod.fst := by
  rcases hsig : lookupField r ("signature") with _ | sig
  · simp only [enrichRow, hsig] at h
    exact Option.noConfusion h
  · simp only [enrichRow, hsig] at h
    rcases hts : lookupField (setField r ("event_type") (extract_event_type sig))
        ("timestamp") with _ | ts
    · simp only [hts] at h
      exact Option.noConfusion h
    · simp only [hts] at h
      rcases hdt : parseTimestamp ts with _ | dt
      · simp only [hdt] at h
        exact Option.noConfusion h
      · simp only [hdt, Option.some.injEq] at h
        subst h
        refine ⟨?_, mem_keys_setField_self _ _ _⟩
        apply mem_keys_setField_of_mem
        apply mem_keys_setField_of_mem
        exact mem_keys_setField_self _ _ _

/-- C8: the exported CSV, reloaded, has one data row per input event and
its header contains both added columns besides the originals. -/
theorem csv_round_trip (events enriched : List Row)
    (h : enrichTable events = Except.ok enriched) :
    (readCsv (toCsv enriched)).2.length = events.length
    ∧ ("event_type") ∈ (readCsv (toCsv enriched)).1
    ∧ ("hour") ∈ (readCsv (toCsv enriched)).1 := by
  unfold enrichTable at h
  split_ifs at h with he
  have hev : ∃ e es, events = e :: es := by
    cases events with
    | nil => simp at he
    | cons e es => exact ⟨e, es, rfl⟩
  obtain ⟨e, es, rfl⟩ := hev
  rcases ht : traverseRows (e :: es) with _ | rows
  · simp only [ht] at h
    exact Except.noConfusion h
  · simp only [ht] at h
    obtain rfl := Except.ok.inj h
    obtain ⟨r₂, rs₂, her, -, rfl⟩ := traverseRows_cons e es rows ht
    have hk := enrichRow_keys e r₂ her
    refine ⟨?_, ?_, ?_⟩
    · simp only [readCsv, toCsv, List.tail_cons, List.length_map]
      exact traverseRows_length _ _ ht
    · simp only [readCsv, toCsv, List.headD_cons]
      exact mem_dfColumnsAux_head _ _ _ _ hk.1
    · simp only [readCsv, toCsv, List.headD_cons]
      exact mem_dfColumnsAux_head _ _ _ _ hk.2

/-- C8 witness: one concrete successfully processed event. -/
theorem csv_round_trip_witness :
    (readCsv (toCsv ([[(("signature"), ("PORTSCAN detected")),
        (("timestamp"), ("2024-01-01 03:15:00")),
        (("event_type"), ("PORTSCAN")), (("hour"), ("3"))]]))).2.length
      = ([[(("signature"), ("PORTSCAN detected")),
        (("timestamp"), ("2024-01-01T03:15:00"))]] : List Row).length :=
  (csv_round_trip
    ([[(("signature"), ("PORTSCAN detected")),
      (("timestamp"), ("2024-01-01T03:15:00"))]])
    ([[(("signature"), ("PORTSCAN detected")),
      (("timestamp"), ("2024-01-01 03:15:00")),
      (("event_type"), ("PORTSCAN")), (("hour"), ("3"))]])
    (by rfl)).1

theorem ne_of_take9 (a b : String) (h : a.data.take 9 ≠ b.data.take 9) :
    a ≠ b :=
  fun he => h (by rw [he])

theorem data_take_append (n : Nat) (c k : String) (h : n ≤ c.data.length) :
    ((c ++ k).data.take n) = c.data.take n := by
  rw [String.data_append]
  exact List.take_append_of_le_length h

theorem take9_keyError (k : String) :
    (errorMessage (MainError.keyError k)).data.take 9
      = ("Ошибка: В").data := by
  unfold errorMessage
  have h1 : (9 : Nat)
      ≤ (("Ошибка: В данных отсутствует ключ \x27") ++ k).data.length := by
    rw [String.data_append, List.length_append]
    exact Nat.le_trans (by decide) (Nat.le_add_right _ _)
  rw [data_take_append 9 _ _ h1, data_take_append 9 _ _ (by decide)]
  decide

theorem take9_other (m : String) :
    (errorMessage (MainError.other m)).data.take 9
      = ("Произошла").data := by
  unfold errorMessage
  rw [data_take_append 9 _ _ (by decide)]
  decide

/-- Messages of different taxonomy classes are pairwise distinct. -/
theorem errorMessage_distinct (e₁ e₂ : MainError)
    (h : errClass e₁ ≠ errClass e₂) :
    errorMessage e₁ ≠ errorMessage e₂ := by
  cases e₁ with
  | fileNotFound =>
    cases e₂ with
    | fileNotFound => exact absurd rfl h
    | jsonDecodeError => decide
    | keyError q => exact ne_of_take9 _ _ (by rw [take9_keyError]; decide)
    | other m => exact ne_of_take9 _ _ (by rw [take9_other]; decide)
  | jsonDecodeError =>
    cases e₂ with
    | fileNotFound => decide
    | jsonDecodeError => exact absurd rfl h
    | keyError q => exact ne_of_take9 _ _ (by rw [take9_keyError]; decide)
    | other m => exact ne_of_take9 _ _ (by rw [take9_other]; decide)
  | keyError k =>
    cases e₂ with
    | fileNotFound => exact ne_of_take9 _ _ (by rw [take9_keyError]; decide)
    | jsonDecodeError => exact ne_of_take9 _ _ (by rw [take9_keyError]; decide)
    | keyError q => exact absurd rfl h
    | other m => exact ne_of_take9 _ _ (by rw [take9_keyError, take9_other]; decide)
  | other m =>
    cases e₂ with
    | fileNotFound => exact ne_of_take9 _ _ (by rw [take9_other]; decide)
    | jsonDecodeError => exact ne_of_take9 _ _ (by rw [take9_other]; decide)
    | keyError q => exact ne_of_take9 _ _ (by rw [take9_other, take9_keyError]; decide)
    | other q => exact absurd rfl h

/-- C9: every failure is caught at the top level of main and reported on
the console with a message distinct per taxonomy class; a missing input
file takes exactly the missing-file error path; and main returns a
console message on every input, so no failure escapes. -/
theorem main_error_reporting (e₁ e₂ : MainError)
    (h : errClass e₁ ≠ errClass e₂) :
    errorMessage e₁ ≠ errorMessage e₂
    ∧ runMain none = errorMessage MainError.fileNotFound
    ∧ (∀ file, ∃ out : String, runMain file = out) :=
  ⟨errorMessage_distinct e₁ e₂ h, rfl, fun file => ⟨runMain file, rfl⟩⟩

/-- C9 witness: two concrete errors of different classes. -/
theorem main_error_reporting_witness :
    errorMessage MainError.fileNotFound
      ≠ errorMessage MainError.jsonDecodeError :=
  (main_error_reporting MainError.fileNotFound MainError.jsonDecodeError
    (by decide)).1

/-- C10: the sentinel is ambiguous at the interface: a signature that
genuinely starts with the uppercase run UNKNOWN classifies to UNKNOWN
through a successful match, the same label an unclassifiable signature
receives; and every result is either the sentinel or a nonempty prefix
of the input. -/
theorem unknown_sentinel_ambiguous :
    extract_event_type ("UNKNOWN threat detected") = ("UNKNOWN")
    ∧ extract_event_type ("unclassifiable signature") = ("UNKNOWN")
    ∧ ∀ s : String, extract_event_type s = ("UNKNOWN")
        ∨ (extract_event_type s ≠ ("")
            ∧ (extract_event_type s).data.isPrefixOf s.data = true) := by
  refine ⟨by decide, by decide, ?_⟩
  intro s
  rcases hm : matchEventType s.data with _ | g
  · left
    simp [extract_event_type, hm]
  · right
    rcases matchEventType_sound s.data g hm with ⟨hne, -, hpre⟩
    have hext : extract_event_type s = String.mk g := by
      simp [extract_event_type, hm]
    refine ⟨?_, ?_⟩
    · rw [hext]
      intro hcontra
      apply hne
      have hdata := congrArg String.data hcontra
      simpa using hdata
    · rw [hext]
      exact List.isPrefixOf_iff_prefix.mpr hpre

end Analytics
